import Mathlib

/-!
Verification of the IVF index-building pipeline (`builder.rs`): partition
assignment, the two shuffle strategies (in-engine sort-and-group and the
disk-staged three-phase shuffler), and the `build_partitions` orchestrator.
Rust machine integers are modelled as `Nat` with explicit wrap-around where
a cast occurs; fallible code returns `Except`/`Option`.
-/

namespace IvfBuilder

/-- A transformed row as produced by the partition assigner: the stable row
id, the assigned partition id, and the fixed-width PQ code (one byte per
sub-vector). -/
structure ShuffleRow where
  rowId : Nat
  partId : Nat
  code : List Nat
deriving DecidableEq, Repr

/-- Modelled from the spec: phase 1 of the disk-staged shuffler
(`IvfShuffler::write_unsorted_stream`, lance-index, not under src/):
every incoming batch is appended, unsorted, to a single spill area. -/
def writeUnsortedStream (batches : List (List ShuffleRow)) : List ShuffleRow :=
  batches.flatten

/-- Split a list into consecutive chunks of at most `n` elements (the
bounded working units the bucket phase re-reads). A chunk size of `0` is
degenerate and yields the whole list as one chunk. -/
def chunkList (n : Nat) (l : List ShuffleRow) : List (List ShuffleRow) :=
  if h : l = [] then []
  else if h0 : n = 0 then [l]
  else l.take n :: chunkList n (l.drop n)
termination_by l.length
decreasing_by
  have hpos : 0 < l.length := List.length_pos.mpr h
  simp only [List.length_drop]
  omega

/-- Number of intermediate bucket files: the spec leaves the exact formula
open ("e.g. bucket_count = ceil(partition_count / fan_out_factor)"); we fix
that ceiling formula. -/
def bucketCount (numPartitions fanOut : Nat) : Nat :=
  (numPartitions + fanOut - 1) / fanOut

/-- Modelled from the spec: phase 2 of the disk-staged shuffler
(`IvfShuffler::write_partitioned_shuffles(chunk_size, fan_out_factor)`,
lance-index, not under src/): the staged data is re-read in chunks of
`chunkSize` rows and redistributed into a fixed number of bucket files,
each bucket receiving the rows of a contiguous range of `fanOut` partition
ids; rows stay unsorted by partition id within a bucket. -/
def writePartitionedShuffles (chunkSize fanOut numPartitions : Nat)
    (staged : List ShuffleRow) : List (List ShuffleRow) :=
  let chunks := chunkList chunkSize staged
  (List.range (bucketCount numPartitions fanOut)).map
    (fun b => (chunks.map (List.filter (fun r => r.partId / fanOut = b))).flatten)

/-- Modelled from the spec: phase 3 of the disk-staged shuffler
(`IvfShuffler::load_partitioned_shuffles`, lance-index, not under src/):
for each logical partition id in ascending order, its rows are collected
from the intermediate buckets and emitted as that partition's stream. -/
def loadPartitionedShuffles (numPartitions : Nat)
    (buckets : List (List ShuffleRow)) : List (Nat × List ShuffleRow) :=
  (List.range numPartitions).map
    (fun p => (p, (buckets.map (List.filter (fun r => r.partId = p))).flatten))

/-- All rows emitted across all partitions of the merge phase, in emission
order. -/
def mergedRows (numPartitions : Nat) (buckets : List (List ShuffleRow)) :
    List ShuffleRow :=
  ((loadPartitionedShuffles numPartitions buckets).map Prod.snd).flatten

/-! Strategy A: in-engine sort-and-group (`shuffle_dataset`). The engine's
`sort(col(PART_ID_COLUMN).sort(true, true))` is a stable ascending sort on
the partition-id column; it is modelled by a stable insertion sort, and
`group_by_stream(&[PART_ID_COLUMN])` by grouping adjacent equal ids. -/

/-- Insert a row into a list, before the first element whose partition id is
not smaller; equal ids already present stay in front, which makes the sort
built from this stable. -/
def insertRow (r : ShuffleRow) : List ShuffleRow → List ShuffleRow
  | [] => [r]
  | x :: xs => if x.partId < r.partId then x :: insertRow r xs else r :: x :: xs

/-- Stable ascending sort on the partition-id column. -/
def sortByPartId : List ShuffleRow → List ShuffleRow
  | [] => []
  | r :: rest => insertRow r (sortByPartId rest)

/-- Group adjacent rows sharing a partition id into one `(id, rows)` group,
preserving row order inside each group. -/
def groupByPartId : List ShuffleRow → List (Nat × List ShuffleRow)
  | [] => []
  | r :: rest =>
    match groupByPartId rest with
    | [] => [(r.partId, [r])]
    | (p, g) :: gs =>
      if r.partId = p then (p, r :: g) :: gs
      else (r.partId, [r]) :: (p, g) :: gs

/-- Levels of the logging facade (`log::error!`, `log::warn!`, ...). -/
inductive LogLevel where
  | errorLvl
  | warnLvl
  | infoLvl
deriving DecidableEq, Repr

/-- Value of a decimal digit character, `none` for a non-digit. -/
def digitVal (c : Char) : Option Nat :=
  if '0' ≤ c ∧ c ≤ '9' then some (c.toNat - '0'.toNat) else none

/-- Accumulate the decimal value of a character list, failing on the first
non-digit. -/
def parseDigitsAux (acc : Nat) : List Char → Option Nat
  | [] => some acc
  | c :: cs =>
    match digitVal c with
    | some d => parseDigitsAux (acc * 10 + d) cs
    | none => none

/-- Rust's `str::parse::<usize>()` on a 64-bit target: a non-empty run of
decimal digits whose value fits in the machine word. -/
def rustParseUsize (s : String) : Option Nat :=
  match s.toList with
  | [] => none
  | cs => (parseDigitsAux 0 cs).filter (fun n => n < 2 ^ 64)

/-- The `LANCE_MEMORY_LIMIT` handling of `shuffle_dataset` (lines 103-116):
an absent variable yields no limit; a value that fails to parse yields no
limit plus an error-level log line; a parsed value is the limit. -/
def memoryLimitFromEnv (env : Option String) :
    Option Nat × List (LogLevel × String) :=
  match env with
  | none => (none, [])
  | some s =>
    match rustParseUsize s with
    | some n => (some n, [])
    | none =>
      (none, [(LogLevel.errorLvl,
        "Failed to parse LANCE_MEMORY_LIMIT, using default of unbounded.")])

/-- The execution context's memory allocator. -/
inductive MemPool where
  | unboundedPool
  | greedyPool (limit : Nat)
deriving DecidableEq, Repr

/-- Pool selection of `shuffle_dataset` (lines 118-122): a parsed limit
yields a greedy pool capped at that budget, otherwise the unbounded pool. -/
def memoryPoolOf : Option Nat → MemPool
  | some n => MemPool.greedyPool n
  | none => MemPool.unboundedPool

/-- Strategy A (`shuffle_dataset`), downstream of the transform stage:
builds the memory-bounded execution context from the environment value,
then sorts the transformed stream by partition id and groups it. Returns
the chosen pool, the emitted log lines, and the grouped stream. -/
def shuffleDatasetA (env : Option String) (rows : List ShuffleRow) :
    (MemPool × List (LogLevel × String)) × List (Nat × List ShuffleRow) :=
  let lim := memoryLimitFromEnv env
  ((memoryPoolOf lim.1, lim.2), groupByPartId (sortByPartId rows))

/-- Error kinds of the lance `Error` enum that matter here. -/
inductive ErrKind where
  | schemaKind
  | ioKind
  | indexKind
deriving DecidableEq, Repr

/-- A lance error: a kind plus a message. -/
structure LanceErr where
  kind : ErrKind
  message : String
deriving DecidableEq, Repr

/-- Rust's `Display`-rendering `err.to_string()`, modelled as the error's
message. -/
def errToString (e : LanceErr) : String := e.message

/-- DataFusion error variants used by strategy A's error mapping. -/
inductive DFErr where
  | external (e : LanceErr)
  | execution (msg : String)
deriving DecidableEq, Repr

/-- Outcome of one spawned per-batch assignment task: the transformed batch,
a transform failure inside the task, or a failed join (task panic /
cancellation). -/
inductive TaskOutcome (β : Type) where
  | success (b : β)
  | transformFailed (e : LanceErr)
  | joinFailed (msg : String)
deriving DecidableEq, Repr

/-- Error mapping of `shuffle_dataset_v2` (lines 153-163): both a transform
failure and a join failure are converted to `Error::IO` carrying the
rendered message. -/
def v2MapTask {β : Type} : TaskOutcome β → Except LanceErr β
  | TaskOutcome.success b => Except.ok b
  | TaskOutcome.transformFailed e =>
    Except.error { kind := ErrKind.ioKind, message := errToString e }
  | TaskOutcome.joinFailed m =>
    Except.error { kind := ErrKind.ioKind, message := m }

/-- Error mapping of `shuffle_dataset` (lines 79-83): a transform failure
becomes `DataFusionError::External` wrapping the lance error, a join
failure becomes `DataFusionError::Execution` with the rendered message. -/
def aMapTask {β : Type} : TaskOutcome β → Except DFErr β
  | TaskOutcome.success b => Except.ok b
  | TaskOutcome.transformFailed e => Except.error (DFErr.external e)
  | TaskOutcome.joinFailed m => Except.error (DFErr.execution m)

/-- Chunk size passed to `write_partitioned_shuffles` at line 194. -/
def v2ChunkSize : Nat := 10000

/-- Fan-out factor passed to `write_partitioned_shuffles` at line 194. -/
def v2FanOutFactor : Nat := 2

/-- The `(chunk_size, fan_out_factor)` pair `shuffle_dataset_v2` hands to
the bucket phase, as a function of the partition count it received: the
literals of line 194, whatever the partition count. -/
def v2BucketParams (numPartitions : Nat) : Nat × Nat :=
  (v2ChunkSize, v2FanOutFactor)

/-- Strategy B (`shuffle_dataset_v2`), downstream of the transform stage
(lines 189-201): stage the transformed batches, bucket them with the
parameters of line 194, and merge-load the per-partition streams. -/
def shuffleDatasetV2Model (numPartitions : Nat)
    (batches : List (List ShuffleRow)) : List (Nat × List ShuffleRow) :=
  let staged := writeUnsortedStream batches
  let files := writePartitionedShuffles (v2BucketParams numPartitions).1
    (v2BucketParams numPartitions).2 numPartitions staged
  loadPartitionedShuffles numPartitions files

/-- Name of the row-id column (`lance_core::ROW_ID`). -/
def ROW_ID : String := "_rowid"

/-- Name of the partition-id column (`lance_index::vector::PART_ID_COLUMN`). -/
def PART_ID_COLUMN : String := "__ivf_part_id"

/-- Name of the PQ code column (`lance_index::vector::PQ_CODE_COLUMN`). -/
def PQ_CODE_COLUMN : String := "__pq_code"

/-- Arrow data types occurring in the transform output schema. -/
inductive ArrowType where
  | uint64T
  | uint32T
  | uint8T
  | fixedSizeListT (item : ArrowType) (itemNullable : Bool) (width : Int)
deriving DecidableEq, Repr

/-- An Arrow schema field: name, data type, nullability. -/
structure ArrowField where
  name : String
  dtype : ArrowType
  nullable : Bool
deriving DecidableEq, Repr

/-- The row-id field (`lance_core::ROW_ID_FIELD`): a non-nullable unsigned
64-bit column. -/
def rowIdField : ArrowField :=
  { name := ROW_ID, dtype := ArrowType.uint64T, nullable := false }

/-- Rust's `usize as i32` cast: wrap modulo 2^32, then reinterpret as a
signed 32-bit value. -/
def i32ofNat (n : Nat) : Int :=
  if n % 2 ^ 32 < 2 ^ 31 then ((n % 2 ^ 32 : Nat) : Int)
  else ((n % 2 ^ 32 : Nat) : Int) - 2 ^ 32

/-- The fixed output schema both shuffle entry points declare for the
transformed stream (lines 87-98 and 167-178): row id, a non-null unsigned
partition id, and a non-null fixed-size-list code column whose width is the
sub-vector count. -/
def transformOutputSchema (numSubVectors : Nat) : List ArrowField :=
  [rowIdField,
   { name := PART_ID_COLUMN, dtype := ArrowType.uint32T, nullable := false },
   { name := PQ_CODE_COLUMN,
     dtype := ArrowType.fixedSizeListT ArrowType.uint8T true (i32ofNat numSubVectors),
     nullable := false }]

/-- A partition model as handed to the shuffle strategies: centroid count,
an optional half-open partition range to which assignment is scoped, and
optional precomputed row-id to partition-id overrides. -/
structure IvfModel where
  numCentroids : Nat
  range : Option (Nat × Nat)
  overrides : Option (List (Nat × Nat))
deriving DecidableEq, Repr

/-- Modelled from the spec: `new_ivf_with_pq` (lance-index, not under src/)
builds a partition model from the centroids, an optional partition range
and optional precomputed assignments; the range and the overrides are
stored in the model and govern assignment. -/
def newIvfWithPq (numCentroids : Nat) (range : Option (Nat × Nat))
    (overrides : Option (List (Nat × Nat))) : IvfModel :=
  { numCentroids := numCentroids, range := range, overrides := overrides }

/-- The centroid ids eligible for geometric assignment: all centroids when
no range is set, otherwise only those inside the half-open range. -/
def IvfModel.eligiblePartitions (m : IvfModel) : List Nat :=
  (List.range m.numCentroids).filter
    (fun p => match m.range with
      | none => true
      | some se => se.1 ≤ p && p < se.2)

/-- Index of a minimum of `dist` over a candidate list, ties broken towards
the earlier (lower) candidate. -/
def argminBy (dist : Nat → Nat) : List Nat → Option Nat
  | [] => none
  | p :: ps =>
    match argminBy dist ps with
    | none => some p
    | some q => if dist p ≤ dist q then some p else some q

/-- Modelled from the spec: per-row assignment of the partition model
(lance-index, not under src/) — a precomputed override for the row id takes
priority; otherwise the nearest eligible centroid under the metric wins,
ties to the lowest centroid id. -/
def IvfModel.assignRow (m : IvfModel) (dist : Nat → Nat) (rowId : Nat) :
    Option Nat :=
  match m.overrides.bind (fun ov => ov.lookup rowId) with
  | some p => some p
  | none => argminBy dist m.eligiblePartitions

/-- An input row as seen by the transform stage: the row id and the raw
vector. -/
structure InputRow where
  rowId : Nat
  vec : List Int
deriving DecidableEq, Repr

/-- Modelled from the spec: the product quantizer's encoding — one byte per
sub-vector, so the code width is exactly the sub-vector count. `sub i v` is
the codebook index of sub-vector `i` of `v`. -/
def encodePQ (sub : Nat → List Int → Nat) (numSubVectors : Nat)
    (v : List Int) : List Nat :=
  (List.range numSubVectors).map (fun i => sub i v % 256)

/-- Modelled from the spec: `Ivf::partition_transform` (lance-index, not
under src/) — per batch, every row is assigned a partition id and a code,
or the whole batch fails (no partial-row success). -/
def partitionTransform (m : IvfModel) (dist : List Int → Nat → Nat)
    (sub : Nat → List Int → Nat) (numSubVectors : Nat) :
    List InputRow → Option (List ShuffleRow)
  | [] => some []
  | r :: rest =>
    match m.assignRow (dist r.vec) r.rowId,
      partitionTransform m dist sub numSubVectors rest with
    | some p, some out =>
      some (⟨r.rowId, p, encodePQ sub numSubVectors r.vec⟩ :: out)
    | _, _ => none

/-- Observable steps `build_partitions` performs after validation. -/
inductive BuildEffect where
  | constructedModel (m : IvfModel)
  | shuffleInvoked (numPartitions : Nat) (numSubVectors : Nat)
  | wrotePartitions
deriving DecidableEq, Repr

/-- The inputs of `build_partitions` that the claims depend on: the input
stream's schema column names, the vector column name, the IVF model's
partition count, the quantizer's sub-vector count, the requested partition
range, and the optional precomputed assignments. -/
structure BuildInput where
  schemaCols : List String
  column : String
  ivfNumPartitions : Nat
  numSubVectors : Nat
  partRange : Nat × Nat
  precomputed : Option (List (Nat × Nat))
deriving DecidableEq, Repr

/-- The orchestrator `build_partitions` (lines 209-255): validate the
schema (vector column, then row-id column) and fail fast with a schema
error; otherwise construct the range-scoped model with the precomputed
assignments, invoke the disk-staged shuffler sized by
`ivf.num_partitions() as u32`, and write the partitions. The effect list
records the work performed. -/
def buildPartitionsRun (inp : BuildInput) :
    List BuildEffect × Except LanceErr Unit :=
  if !(inp.schemaCols.contains inp.column) then
    ([], Except.error
      ⟨ErrKind.schemaKind, "column does not exist in data stream"⟩)
  else if !(inp.schemaCols.contains ROW_ID) then
    ([], Except.error
      ⟨ErrKind.schemaKind, "ROW ID is not set when building index partitions"⟩)
  else
    let m := newIvfWithPq inp.ivfNumPartitions (some inp.partRange)
      inp.precomputed
    ([BuildEffect.constructedModel m,
      BuildEffect.shuffleInvoked (inp.ivfNumPartitions % 2 ^ 32)
        inp.numSubVectors,
      BuildEffect.wrotePartitions],
     Except.ok ())

/-- State of the bounded parallel transform stage: input batches not yet
pulled, batches currently being transformed in flight, and emitted
outputs. -/
structure BufState where
  pending : List Nat
  inFlight : List Nat
  emitted : List Nat
deriving DecidableEq, Repr

/-- Modelled from the spec: the semantics of `buffer_unordered(n)` driving
the spawned per-batch tasks (futures crate, not under src/; the source
instantiates `n` with `num_cpus::get()`). A new batch may be pulled only
while fewer than `n` tasks are in flight; any in-flight task may complete,
in any order. -/
inductive BufStep (n : Nat) : BufState → BufState → Prop where
  | pull (b : Nat) (rest flight out : List Nat)
      (hlt : flight.length < n) :
      BufStep n ⟨b :: rest, flight, out⟩ ⟨rest, b :: flight, out⟩
  | complete (pend f1 f2 out : List Nat) (b : Nat) :
      BufStep n ⟨pend, f1 ++ b :: f2, out⟩ ⟨pend, f1 ++ f2, b :: out⟩

/-- Reachability under the transform-stage semantics. -/
def BufReach (n : Nat) : BufState → BufState → Prop :=
  Relation.ReflTransGen (BufStep n)

/-- Initial state of the transform stage over an input stream. -/
def initBufState (input : List Nat) : BufState :=
  { pending := input, inFlight := [], emitted := [] }

/-! Helper lemmas for the row-preservation argument. -/

theorem flatten_chunkList (n : Nat) (l : List ShuffleRow) :
    (chunkList n l).flatten = l := by
  induction l using chunkList.induct n with
  | case1 => simp [chunkList]
  | case2 l h h0 =>
    rw [chunkList]
    simp [h, h0]
  | case3 l h h0 ih =>
    rw [chunkList]
    simp only [h, h0, dite_false, List.flatten_cons]
    rw [ih, List.take_append_drop]

theorem flatten_map_filter (q : ShuffleRow → Bool) (L : List (List ShuffleRow)) :
    (L.map (List.filter q)).flatten = L.flatten.filter q := by
  induction L with
  | nil => simp
  | cons a L ih =>
    rw [List.map_cons, List.flatten_cons, ih, List.flatten_cons,
      List.filter_append]

theorem count_filter_eq (q : ShuffleRow → Bool) (x : ShuffleRow)
    (l : List ShuffleRow) :
    (l.filter q).count x = if q x then l.count x else 0 := by
  by_cases hq : q x
  · rw [if_pos hq, List.count_filter]
    exact hq
  · rw [if_neg hq]
    rw [List.count_eq_zero]
    intro hm
    exact hq ((List.mem_filter.mp hm).2)

theorem sum_range_ite (c k n : Nat) :
    (((List.range n).map (fun b => if k = b then c else 0)).sum)
      = if k < n then c else 0 := by
  induction n with
  | zero => simp
  | succ m ih =>
    rw [List.range_succ, List.map_append, List.sum_append, ih]
    simp only [List.map_cons, List.map_nil, List.sum_cons, List.sum_nil]
    split_ifs <;> omega

/-- Counting rows in a "flatten of per-key filters over an initial range of
keys": a row is kept once when its key is below the range bound, zero times
otherwise. -/
theorem count_flatten_range_filter (key : ShuffleRow → Nat) (n : Nat)
    (l : List ShuffleRow) (x : ShuffleRow) :
    ((((List.range n).map (fun i => l.filter (fun r => key r = i))).flatten).count x)
      = if key x < n then l.count x else 0 := by
  rw [List.count_flatten, List.map_map]
  have hmap : ((List.count x) ∘ (fun i => l.filter (fun r => key r = i)))
      = fun i => if key x = i then l.count x else 0 := by
    funext i
    simp only [Function.comp]
    rw [count_filter_eq]
    simp
  rw [hmap, sum_range_ite]

theorem div_lt_bucketCount {fanOut numPartitions p : Nat}
    (hf : 0 < fanOut) (hp : p < numPartitions) :
    p / fanOut < bucketCount numPartitions fanOut := by
  unfold bucketCount
  rw [Nat.div_lt_iff_lt_mul hf, Nat.mul_comm]
  have hd := Nat.div_add_mod (numPartitions + fanOut - 1) fanOut
  have hm := Nat.mod_lt (numPartitions + fanOut - 1) hf
  generalize hX : fanOut * ((numPartitions + fanOut - 1) / fanOut) = X at hd ⊢
  generalize hR : (numPartitions + fanOut - 1) % fanOut = r at hd hm
  omega

/-- The bucket phase's intermediate files, described directly: bucket `b`
holds exactly the staged rows whose partition id falls in its range (the
chunked re-reading does not change the contents). -/
theorem writePartitionedShuffles_eq (chunkSize fanOut numPartitions : Nat)
    (staged : List ShuffleRow) :
    writePartitionedShuffles chunkSize fanOut numPartitions staged
      = (List.range (bucketCount numPartitions fanOut)).map
          (fun b => staged.filter (fun r => r.partId / fanOut = b)) := by
  unfold writePartitionedShuffles
  simp only
  congr 1
  funext b
  rw [flatten_map_filter, flatten_chunkList]

/-- The merge phase's combined output, rewritten as per-partition filters of
the concatenated bucket contents. -/
theorem mergedRows_eq (numPartitions : Nat) (buckets : List (List ShuffleRow)) :
    mergedRows numPartitions buckets
      = ((List.range numPartitions).map
          (fun p => buckets.flatten.filter (fun r => r.partId = p))).flatten := by
  unfold mergedRows loadPartitionedShuffles
  rw [List.map_map]
  refine congrArg List.flatten (List.map_congr_left ?_)
  intro p _
  simp only [Function.comp]
  rw [flatten_map_filter]

/-- C1: for every input stream, any chunk size and any fan-out factor >= 1,
the disk-staged shuffler's merge phase emits, across all partitions
combined, exactly the multiset of rows fed into the stage phase: no row is
duplicated and no row is lost. -/
theorem shuffler_merge_row_preservation
    (batches : List (List ShuffleRow)) (chunkSize fanOut numPartitions : Nat)
    (hf : 1 ≤ fanOut)
    (hp : ∀ r ∈ writeUnsortedStream batches, r.partId < numPartitions) :
    (mergedRows numPartitions
        (writePartitionedShuffles chunkSize fanOut numPartitions
          (writeUnsortedStream batches))).Perm
      (writeUnsortedStream batches) := by
  rw [List.perm_iff_count]
  intro x
  rw [mergedRows_eq, writePartitionedShuffles_eq]
  rw [count_flatten_range_filter (fun r => r.partId) numPartitions _ x]
  rw [count_flatten_range_filter (fun r => r.partId / fanOut)
    (bucketCount numPartitions fanOut) _ x]
  by_cases hlt : x.partId < numPartitions
  · rw [if_pos hlt, if_pos (div_lt_bucketCount (by omega) hlt)]
  · rw [if_neg hlt]
    have hx : x ∉ writeUnsortedStream batches := fun hm => hlt (hp x hm)
    rw [List.count_eq_zero.mpr hx]

/-- Witness for C1 at a concrete input: two batches, chunk size 1, fan-out
factor 2, three partitions. -/
theorem shuffler_merge_row_preservation_witness :
    (mergedRows 3
        (writePartitionedShuffles 1 2 3
          (writeUnsortedStream
            [[⟨0, 2, [7]⟩, ⟨1, 0, [8]⟩], [⟨2, 1, [9]⟩]]))).Perm
      (writeUnsortedStream [[⟨0, 2, [7]⟩, ⟨1, 0, [8]⟩], [⟨2, 1, [9]⟩]]) :=
  shuffler_merge_row_preservation
    [[⟨0, 2, [7]⟩, ⟨1, 0, [8]⟩], [⟨2, 1, [9]⟩]] 1 2 3 (by decide)
    (by decide)

/-! Lemmas about the stable sort and the adjacent grouping of strategy A. -/

theorem insertRow_perm (r : ShuffleRow) (l : List ShuffleRow) :
    (insertRow r l).Perm (r :: l) := by
  induction l with
  | nil => rw [insertRow]
  | cons x xs ih =>
    rw [insertRow]
    by_cases hc : x.partId < r.partId
    · rw [if_pos hc]
      exact (ih.cons x).trans (List.Perm.swap r x xs)
    · rw [if_neg hc]

theorem sortByPartId_perm (l : List ShuffleRow) : (sortByPartId l).Perm l := by
  induction l with
  | nil => rw [sortByPartId]
  | cons r rest ih =>
    rw [sortByPartId]
    exact (insertRow_perm r (sortByPartId rest)).trans (ih.cons r)

theorem insertRow_sorted (r : ShuffleRow) (l : List ShuffleRow)
    (h : l.Pairwise (fun a b => a.partId ≤ b.partId)) :
    (insertRow r l).Pairwise (fun a b => a.partId ≤ b.partId) := by
  induction l with
  | nil =>
    rw [insertRow]
    exact List.pairwise_singleton _ r
  | cons x xs ih =>
    have h1 : ∀ y ∈ xs, x.partId ≤ y.partId := by
      intro y hy
      exact (List.pairwise_cons.mp h).1 y hy
    have h2 : xs.Pairwise (fun a b => a.partId ≤ b.partId) :=
      (List.pairwise_cons.mp h).2
    rw [insertRow]
    by_cases hc : x.partId < r.partId
    · rw [if_pos hc, List.pairwise_cons]
      constructor
      · intro y hy
        show x.partId ≤ y.partId
        rcases List.mem_cons.mp ((insertRow_perm r xs).mem_iff.mp hy) with
          hy2 | hy2
        · rw [hy2]
          exact Nat.le_of_lt hc
        · exact h1 y hy2
      · exact ih h2
    · rw [if_neg hc, List.pairwise_cons]
      constructor
      · intro y hy
        show r.partId ≤ y.partId
        rcases List.mem_cons.mp hy with hy2 | hy2
        · rw [hy2]
          exact Nat.le_of_not_lt hc
        · exact Nat.le_trans (Nat.le_of_not_lt hc) (h1 y hy2)
      · exact h

theorem sortByPartId_sorted (l : List ShuffleRow) :
    (sortByPartId l).Pairwise (fun a b => a.partId ≤ b.partId) := by
  induction l with
  | nil =>
    rw [sortByPartId]
    exact List.Pairwise.nil
  | cons r rest ih =>
    rw [sortByPartId]
    exact insertRow_sorted r (sortByPartId rest) ih

theorem insertRow_filter (r : ShuffleRow) (p : Nat) (l : List ShuffleRow) :
    (insertRow r l).filter (fun x => x.partId = p)
      = if r.partId = p then r :: l.filter (fun x => x.partId = p)
        else l.filter (fun x => x.partId = p) := by
  induction l with
  | nil =>
    rw [insertRow]
    by_cases hr : r.partId = p
    · rw [if_pos hr]
      simp [hr]
    · rw [if_neg hr]
      simp [hr]
  | cons x xs ih =>
    rw [insertRow]
    by_cases hc : x.partId < r.partId
    · rw [if_pos hc]
      by_cases hr : r.partId = p
      · have hx : ¬ x.partId = p := by omega
        rw [if_pos hr]
        simp only [List.filter_cons, ih, if_pos hr, decide_eq_true_eq, hx,
          if_false, decide_eq_false hx]
      · rw [if_neg hr]
        simp only [List.filter_cons, ih, if_neg hr]
    · rw [if_neg hc]
      by_cases hr : r.partId = p
      · rw [if_pos hr]
        simp only [List.filter_cons, decide_eq_true_eq, hr, if_true,
          decide_true_eq_true]
      · rw [if_neg hr]
        simp only [List.filter_cons, decide_eq_true_eq, hr, if_false,
          decide_eq_false hr]

theorem sortByPartId_stable (l : List ShuffleRow) (p : Nat) :
    (sortByPartId l).filter (fun x => x.partId = p)
      = l.filter (fun x => x.partId = p) := by
  induction l with
  | nil => rw [sortByPartId]
  | cons r rest ih =>
    rw [sortByPartId, insertRow_filter, List.filter_cons, ih]
    by_cases hr : r.partId = p
    · rw [if_pos hr, if_pos (by simp [hr])]
    · rw [if_neg hr, if_neg (by simp [hr])]

theorem groupByPartId_key_mem (l : List ShuffleRow) (q : Nat)
    (hq : q ∈ (groupByPartId l).map Prod.fst) : ∃ r ∈ l, r.partId = q := by
  induction l with
  | nil => simp [groupByPartId] at hq
  | cons r rest ih =>
    rcases hg : groupByPartId rest with _ | ⟨⟨p, gr⟩, gs⟩
    · simp only [groupByPartId, hg] at hq
      simp at hq
      exact ⟨r, List.mem_cons_self r rest, hq.symm⟩
    · simp only [groupByPartId, hg] at hq
      by_cases hrp : r.partId = p
      · rw [if_pos hrp] at hq
        simp only [List.map_cons] at hq
        have hq2 : q ∈ (groupByPartId rest).map Prod.fst := by
          rw [hg]
          simpa using hq
        obtain ⟨y, hy, hyq⟩ := ih hq2
        exact ⟨y, List.mem_cons_of_mem r hy, hyq⟩
      · rw [if_neg hrp] at hq
        simp only [List.map_cons] at hq
        rcases List.mem_cons.mp hq with h1 | h1
        · exact ⟨r, List.mem_cons_self r rest, h1.symm⟩
        · have hq2 : q ∈ (groupByPartId rest).map Prod.fst := by
            rw [hg]
            simpa using h1
          obtain ⟨y, hy, hyq⟩ := ih hq2
          exact ⟨y, List.mem_cons_of_mem r hy, hyq⟩

theorem groupByPartId_pairwise (l : List ShuffleRow)
    (h : l.Pairwise (fun a b => a.partId ≤ b.partId)) :
    ((groupByPartId l).map Prod.fst).Pairwise (· < ·) := by
  induction l with
  | nil => simp [groupByPartId]
  | cons r rest ih =>
    have h1 : ∀ y ∈ rest, r.partId ≤ y.partId := by
      intro y hy
      exact (List.pairwise_cons.mp h).1 y hy
    have ihp := ih (List.pairwise_cons.mp h).2
    rcases hg : groupByPartId rest with _ | ⟨⟨p, gr⟩, gs⟩
    · simp [groupByPartId, hg]
    · simp only [groupByPartId, hg]
      rw [hg] at ihp
      by_cases hrp : r.partId = p
      · rw [if_pos hrp]
        simpa using ihp
      · rw [if_neg hrp]
        simp only [List.map_cons] at ihp ⊢
        rw [List.pairwise_cons]
        constructor
        · intro q hq
          show r.partId < q
          have hple : r.partId ≤ p := by
            obtain ⟨y, hy, hyq⟩ := groupByPartId_key_mem rest p
              (by rw [hg]; simp)
            rw [← hyq]
            exact h1 y hy
          rcases List.mem_cons.mp hq with h3 | h3
          · omega
          · have hpq : p < q := (List.pairwise_cons.mp ihp).1 q h3
            omega
        · exact ihp

theorem groupByPartId_mem_key (l : List ShuffleRow) :
    ∀ g ∈ groupByPartId l, ∀ s ∈ g.2, s.partId = g.1 := by
  induction l with
  | nil => simp [groupByPartId]
  | cons r rest ih =>
    rcases hg : groupByPartId rest with _ | ⟨⟨p, gr⟩, gs⟩
    · simp only [groupByPartId, hg]
      intro g hgm s hs
      simp only [List.mem_singleton] at hgm
      rw [hgm] at hs ⊢
      simp only [List.mem_singleton] at hs
      rw [hs]
    · simp only [groupByPartId, hg]
      have ih2 := ih
      rw [hg] at ih2
      by_cases hrp : r.partId = p
      · rw [if_pos hrp]
        intro g hgm s hs
        rcases List.mem_cons.mp hgm with h1 | h1
        · rw [h1] at hs ⊢
          rcases List.mem_cons.mp hs with h2 | h2
          · rw [h2]
            exact hrp
          · exact ih2 (p, gr) (List.mem_cons_self _ _) s h2
        · exact ih2 g (List.mem_cons_of_mem _ h1) s hs
      · rw [if_neg hrp]
        intro g hgm s hs
        rcases List.mem_cons.mp hgm with h1 | h1
        · rw [h1] at hs ⊢
          simp only [List.mem_singleton] at hs
          rw [hs]
        · exact ih2 g h1 s hs

theorem loadPartitionedShuffles_map_fst (numPartitions : Nat)
    (buckets : List (List ShuffleRow)) :
    (loadPartitionedShuffles numPartitions buckets).map Prod.fst
      = List.range numPartitions := by
  unfold loadPartitionedShuffles
  rw [List.map_map]
  have hid : (Prod.fst ∘ fun p : Nat =>
      (p, (buckets.map (List.filter (fun r => r.partId = p))).flatten)) = id := by
    funext p
    rfl
  rw [hid, List.map_id]

/-- C2: strategy A applies a stable ascending sort on the partition-id
column and then groups by partition id; in the result of either strategy
the sequence of partition ids is strictly increasing, hence non-decreasing
with no partition id appearing in two separate groups. -/
theorem shuffle_output_partition_order
    (env : Option String) (rows : List ShuffleRow)
    (numPartitions : Nat) (batches : List (List ShuffleRow)) :
    ((sortByPartId rows).Pairwise (fun a b => a.partId ≤ b.partId)
      ∧ (sortByPartId rows).Perm rows
      ∧ (∀ p, (sortByPartId rows).filter (fun x => x.partId = p)
          = rows.filter (fun x => x.partId = p)))
    ∧ (shuffleDatasetA env rows).2 = groupByPartId (sortByPartId rows)
    ∧ (∀ g ∈ (shuffleDatasetA env rows).2, ∀ s ∈ g.2, s.partId = g.1)
    ∧ ((shuffleDatasetA env rows).2.map Prod.fst).Pairwise (· < ·)
    ∧ ((shuffleDatasetA env rows).2.map Prod.fst).Nodup
    ∧ ((shuffleDatasetV2Model numPartitions batches).map Prod.fst).Pairwise
        (· < ·)
    ∧ ((shuffleDatasetV2Model numPartitions batches).map Prod.fst).Nodup := by
  have hA2 : (shuffleDatasetA env rows).2
      = groupByPartId (sortByPartId rows) := rfl
  have hpairA : ((shuffleDatasetA env rows).2.map Prod.fst).Pairwise
      (· < ·) := by
    rw [hA2]
    exact groupByPartId_pairwise _ (sortByPartId_sorted rows)
  have hB : (shuffleDatasetV2Model numPartitions batches).map Prod.fst
      = List.range numPartitions := loadPartitionedShuffles_map_fst _ _
  have hpairB : ((shuffleDatasetV2Model numPartitions batches).map
      Prod.fst).Pairwise (· < ·) := by
    rw [hB]
    exact List.pairwise_lt_range numPartitions
  refine ⟨⟨sortByPartId_sorted rows, sortByPartId_perm rows,
    fun p => sortByPartId_stable rows p⟩, hA2, ?_, hpairA,
    hpairA.imp (fun h => Nat.ne_of_lt h), hpairB,
    hpairB.imp (fun h => Nat.ne_of_lt h)⟩
  rw [hA2]
  exact groupByPartId_mem_key (sortByPartId rows)

/-- C4 counterexample: with the malformed budget value "12abc" the parse
failure is logged at error level, not at warning level, while the claim
says it is reported as a warning. -/
theorem memory_limit_log_level_counterexample :
    (shuffleDatasetA (some "12abc") []).1.1 = MemPool.unboundedPool
      ∧ (shuffleDatasetA (some "12abc") []).1.2.map Prod.fst
          = [LogLevel.errorLvl]
      ∧ LogLevel.errorLvl ≠ LogLevel.warnLvl := by
  refine ⟨rfl, rfl, ?_⟩
  decide

/-- C4 (amended): an absent budget yields the unbounded allocator with no
log line; a malformed budget yields the unbounded allocator plus a
non-fatal error-level log line, and the shuffle result is still produced;
a parsed budget yields a greedy allocator capped at that byte value. -/
theorem memory_limit_policy (env : Option String) (rows : List ShuffleRow) :
    (env = none →
      (shuffleDatasetA env rows).1 = (MemPool.unboundedPool, []))
    ∧ (∀ s n, env = some s → rustParseUsize s = some n →
      (shuffleDatasetA env rows).1 = (MemPool.greedyPool n, []))
    ∧ (∀ s, env = some s → rustParseUsize s = none →
      (shuffleDatasetA env rows).1.1 = MemPool.unboundedPool
        ∧ (shuffleDatasetA env rows).1.2.map Prod.fst = [LogLevel.errorLvl])
    ∧ (shuffleDatasetA env rows).2 = groupByPartId (sortByPartId rows) := by
  refine ⟨?_, ?_, ?_, rfl⟩
  · intro h
    subst h
    rfl
  · intro s n hs hn
    subst hs
    simp only [shuffleDatasetA, memoryLimitFromEnv, hn]
    rfl
  · intro s hs hn
    subst hs
    simp only [shuffleDatasetA, memoryLimitFromEnv, hn]
    exact ⟨rfl, rfl⟩

/-- Witness for C4 (amended) at the concrete values "4096" and "oops". -/
theorem memory_limit_policy_witness :
    (shuffleDatasetA (some "4096") []).1 = (MemPool.greedyPool 4096, [])
      ∧ (shuffleDatasetA (some "oops") []).1.1 = MemPool.unboundedPool :=
  ⟨(memory_limit_policy (some "4096") []).2.1 "4096" 4096 rfl (by decide),
   ((memory_limit_policy (some "oops") []).2.2.1 "oops" rfl (by decide)).1⟩

/-- C5 counterexample: the chunk size and fan-out factor handed to the
bucket phase are identical for partition counts 4 and 4194304 — the call
site's literals, i.e. hard-coded constants rather than a configurable
policy. -/
theorem bucket_params_counterexample :
    v2BucketParams 4 = (10000, 2) ∧ v2BucketParams 4194304 = (10000, 2) :=
  ⟨rfl, rfl⟩

/-- C5 (amended): the disk-staged shuffler's chunk size and fan-out factor
are the hard-coded constants 10000 and 2 of the call site, independent of
the number of logical partitions, and the pipeline applies exactly these
constants. -/
theorem bucket_params_hard_coded (numPartitions : Nat)
    (batches : List (List ShuffleRow)) :
    v2BucketParams numPartitions = (v2ChunkSize, v2FanOutFactor)
      ∧ (v2ChunkSize, v2FanOutFactor) = (10000, 2)
      ∧ shuffleDatasetV2Model numPartitions batches
          = loadPartitionedShuffles numPartitions
              (writePartitionedShuffles 10000 2 numPartitions
                (writeUnsortedStream batches)) :=
  ⟨rfl, rfl, rfl⟩

/-- C6 counterexample: a transform failure of schema kind surfaces from the
v2 pipeline as an error of IO kind — the surfaced kind differs from the
underlying failure's kind. -/
theorem error_kind_counterexample :
    v2MapTask (β := Nat)
        (TaskOutcome.transformFailed ⟨ErrKind.schemaKind, "missing column"⟩)
        = Except.error ⟨ErrKind.ioKind, "missing column"⟩
      ∧ ErrKind.ioKind ≠ ErrKind.schemaKind := by
  refine ⟨rfl, ?_⟩
  decide

/-- C6 (amended): every fatal task outcome surfaces as a stream error and
none is swallowed, but the kind is normalized: strategy B maps both
transform and join failures to IO-kind errors carrying the underlying
message; strategy A wraps transform failures as External (carrying the
underlying error unmodified) and join failures as Execution errors. -/
theorem error_propagation {β : Type} (o : TaskOutcome β) :
    (∀ b, o = TaskOutcome.success b →
      v2MapTask o = Except.ok b ∧ aMapTask o = Except.ok b)
    ∧ (∀ e, o = TaskOutcome.transformFailed e →
      v2MapTask o = Except.error ⟨ErrKind.ioKind, errToString e⟩
        ∧ aMapTask o = Except.error (DFErr.external e))
    ∧ (∀ m, o = TaskOutcome.joinFailed m →
      v2MapTask o = Except.error ⟨ErrKind.ioKind, m⟩
        ∧ aMapTask o = Except.error (DFErr.execution m)) := by
  refine ⟨?_, ?_, ?_⟩ <;> intro x hx <;> subst hx <;> exact ⟨rfl, rfl⟩

/-- Witness for C6 (amended) at concrete failures. -/
theorem error_propagation_witness :
    v2MapTask (β := Nat)
        (TaskOutcome.transformFailed ⟨ErrKind.indexKind, "bad centroid"⟩)
        = Except.error ⟨ErrKind.ioKind, "bad centroid"⟩
      ∧ aMapTask (β := Nat) (TaskOutcome.joinFailed "task panicked")
        = Except.error (DFErr.execution "task panicked") :=
  ⟨((error_propagation _).2.1 _ rfl).1, ((error_propagation _).2.2 _ rfl).2⟩

theorem argminBy_mem (dist : Nat → Nat) (l : List Nat) (q : Nat)
    (h : argminBy dist l = some q) : q ∈ l := by
  induction l with
  | nil => simp [argminBy] at h
  | cons p ps ih =>
    cases hm : argminBy dist ps with
    | none =>
      simp only [argminBy, hm] at h
      cases h
      exact List.mem_cons_self _ _
    | some r =>
      simp only [argminBy, hm] at h
      by_cases hd : dist p ≤ dist r
      · rw [if_pos hd] at h
        cases h
        exact List.mem_cons_self _ _
      · rw [if_neg hd] at h
        cases h
        exact List.mem_cons_of_mem p (ih hm)

/-- C3: a missing vector column or a missing row-id column makes
`build_partitions` return a schema error with an empty effect list: no
model construction, no shuffle invocation, no write. -/
theorem build_partitions_schema_fail_fast (inp : BuildInput)
    (h : inp.schemaCols.contains inp.column = false
      ∨ inp.schemaCols.contains ROW_ID = false) :
    (buildPartitionsRun inp).1 = []
      ∧ ∃ msg, (buildPartitionsRun inp).2
          = Except.error ⟨ErrKind.schemaKind, msg⟩ := by
  rcases h with h | h
  · simp only [buildPartitionsRun, h]
    exact ⟨rfl, _, rfl⟩
  · by_cases hc : inp.schemaCols.contains inp.column
    · simp only [buildPartitionsRun, hc, h]
      exact ⟨rfl, _, rfl⟩
    · rw [Bool.not_eq_true] at hc
      simp only [buildPartitionsRun, hc]
      exact ⟨rfl, _, rfl⟩

/-- Witness for C3: a stream whose schema has the row-id column but not the
requested vector column. -/
theorem build_partitions_schema_fail_fast_witness :
    (buildPartitionsRun
        ⟨["other", "_rowid"], "vector", 4, 8, (0, 2), none⟩).1 = []
      ∧ ∃ msg, (buildPartitionsRun
          ⟨["other", "_rowid"], "vector", 4, 8, (0, 2), none⟩).2
          = Except.error ⟨ErrKind.schemaKind, msg⟩ :=
  build_partitions_schema_fail_fast _ (Or.inl (by decide))

/-- C7: with a valid schema, the first thing `build_partitions` does is
construct the partition model carrying exactly the requested half-open
range and the caller's precomputed overrides; geometric assignment only
ever yields ids inside that range, and overrides are answered as stored. -/
theorem build_partitions_model_scoped (inp : BuildInput)
    (h1 : inp.schemaCols.contains inp.column = true)
    (h2 : inp.schemaCols.contains ROW_ID = true) :
    (buildPartitionsRun inp).1.head?
        = some (BuildEffect.constructedModel
            (newIvfWithPq inp.ivfNumPartitions (some inp.partRange)
              inp.precomputed))
      ∧ (newIvfWithPq inp.ivfNumPartitions (some inp.partRange)
          inp.precomputed).range = some inp.partRange
      ∧ (newIvfWithPq inp.ivfNumPartitions (some inp.partRange)
          inp.precomputed).overrides = inp.precomputed
      ∧ (∀ p, p ∈ (newIvfWithPq inp.ivfNumPartitions (some inp.partRange)
            inp.precomputed).eligiblePartitions →
          inp.partRange.1 ≤ p ∧ p < inp.partRange.2)
      ∧ (∀ dist rowId p,
          (newIvfWithPq inp.ivfNumPartitions (some inp.partRange)
            inp.precomputed).assignRow dist rowId = some p →
          inp.precomputed.bind (fun ov => ov.lookup rowId) = some p
            ∨ (inp.partRange.1 ≤ p ∧ p < inp.partRange.2)) := by
  have helig : ∀ p, p ∈ (newIvfWithPq inp.ivfNumPartitions
      (some inp.partRange) inp.precomputed).eligiblePartitions →
      inp.partRange.1 ≤ p ∧ p < inp.partRange.2 := by
    intro p hp
    unfold IvfModel.eligiblePartitions newIvfWithPq at hp
    have := (List.mem_filter.mp hp).2
    simp only at this
    rcases Prod.mk.eta (p := inp.partRange) ▸ this with h3
    simp only [Bool.and_eq_true, decide_eq_true_eq] at h3
    exact h3
  refine ⟨?_, rfl, rfl, helig, ?_⟩
  · simp only [buildPartitionsRun, h1, h2]
    rfl
  · intro dist rowId p hap
    unfold IvfModel.assignRow at hap
    cases ho : (newIvfWithPq inp.ivfNumPartitions (some inp.partRange)
        inp.precomputed).overrides.bind (fun ov => ov.lookup rowId) with
    | some q =>
      rw [ho] at hap
      cases hap
      exact Or.inl ho
    | none =>
      rw [ho] at hap
      exact Or.inr (helig p (argminBy_mem dist _ p hap))

/-- Witness for C7 at a concrete valid input with a proper sub-range and a
precomputed override. -/
theorem build_partitions_model_scoped_witness :
    (buildPartitionsRun
        ⟨["vector", "_rowid"], "vector", 8, 4, (2, 5), some [(7, 3)]⟩).1.head?
        = some (BuildEffect.constructedModel
            (newIvfWithPq 8 (some (2, 5)) (some [(7, 3)])))
      ∧ (newIvfWithPq 8 (some (2, 5)) (some [(7, 3)])).range = some (2, 5)
      ∧ (newIvfWithPq 8 (some (2, 5)) (some [(7, 3)])).overrides
          = some [(7, 3)]
      ∧ (∀ p, p ∈ (newIvfWithPq 8 (some (2, 5))
            (some [(7, 3)])).eligiblePartitions → 2 ≤ p ∧ p < 5)
      ∧ (∀ dist rowId p,
          (newIvfWithPq 8 (some (2, 5)) (some [(7, 3)])).assignRow dist rowId
            = some p →
          (some [(7, 3)] : Option (List (Nat × Nat))).bind
              (fun ov => ov.lookup rowId) = some p
            ∨ (2 ≤ p ∧ p < 5)) :=
  build_partitions_model_scoped
    ⟨["vector", "_rowid"], "vector", 8, 4, (2, 5), some [(7, 3)]⟩
    (by decide) (by decide)

/-- C10: with a valid schema, the partition count handed to the disk-staged
shuffler is the IVF model's total partition count (`ivf.num_partitions()`),
whatever the requested partition range is. -/
theorem build_partitions_shuffler_size (inp : BuildInput)
    (h1 : inp.schemaCols.contains inp.column = true)
    (h2 : inp.schemaCols.contains ROW_ID = true)
    (h3 : inp.ivfNumPartitions < 2 ^ 32) :
    BuildEffect.shuffleInvoked inp.ivfNumPartitions inp.numSubVectors
      ∈ (buildPartitionsRun inp).1 := by
  simp only [buildPartitionsRun, h1, h2]
  rw [Nat.mod_eq_of_lt h3]
  simp

/-- Witness for C10: ten IVF partitions, requested range [2, 5) of width 3;
the shuffler is sized 10, not 3. -/
theorem build_partitions_shuffler_size_witness :
    (BuildEffect.shuffleInvoked 10 8
        ∈ (buildPartitionsRun
            ⟨["vector", "_rowid"], "vector", 10, 8, (2, 5), none⟩).1)
      ∧ 10 ≠ 5 - 2 :=
  ⟨build_partitions_shuffler_size
      ⟨["vector", "_rowid"], "vector", 10, 8, (2, 5), none⟩
      (by decide) (by decide) (by decide),
   by decide⟩

theorem encodePQ_length (sub : Nat → List Int → Nat) (numSubVectors : Nat)
    (v : List Int) : (encodePQ sub numSubVectors v).length = numSubVectors := by
  unfold encodePQ
  rw [List.length_map, List.length_range]

theorem i32ofNat_small (n : Nat) (h : n < 2 ^ 31) : i32ofNat n = (n : Int) := by
  unfold i32ofNat
  rw [Nat.mod_eq_of_lt (by omega)]
  rw [if_pos h]

theorem partitionTransform_code_length (m : IvfModel)
    (dist : List Int → Nat → Nat) (sub : Nat → List Int → Nat)
    (numSubVectors : Nat) (rows : List InputRow) (out : List ShuffleRow)
    (h : partitionTransform m dist sub numSubVectors rows = some out) :
    ∀ s ∈ out, s.code.length = numSubVectors := by
  induction rows generalizing out with
  | nil =>
    simp only [partitionTransform] at h
    cases h
    intro s hs
    simp at hs
  | cons r rest ih =>
    cases ha : m.assignRow (dist r.vec) r.rowId with
    | none =>
      simp only [partitionTransform, ha] at h
      cases h
    | some p =>
      cases hr : partitionTransform m dist sub numSubVectors rest with
      | none =>
        simp only [partitionTransform, ha, hr] at h
        cases h
      | some out2 =>
        simp only [partitionTransform, ha, hr] at h
        cases h
        intro s hs
        rcases List.mem_cons.mp hs with h2 | h2
        · rw [h2]
          exact encodePQ_length sub numSubVectors r.vec
        · exact ih out2 hr s h2

/-- C8: the transform stage's declared output schema keeps the row-id
column, contains no raw vector column, and adds a non-null unsigned 32-bit
partition-id column and a non-null fixed-width code column of width equal
to the quantizer's sub-vector count; every batch the modelled assigner
emits carries codes of exactly that width. -/
theorem transform_output_schema_shape (numSubVectors : Nat) (column : String)
    (hw : numSubVectors < 2 ^ 31)
    (hc1 : column ≠ ROW_ID) (hc2 : column ≠ PART_ID_COLUMN)
    (hc3 : column ≠ PQ_CODE_COLUMN) :
    rowIdField ∈ transformOutputSchema numSubVectors
      ∧ (∀ f ∈ transformOutputSchema numSubVectors, f.name ≠ column)
      ∧ (⟨PART_ID_COLUMN, ArrowType.uint32T, false⟩ : ArrowField)
          ∈ transformOutputSchema numSubVectors
      ∧ (⟨PQ_CODE_COLUMN,
            ArrowType.fixedSizeListT ArrowType.uint8T true (numSubVectors : Int),
            false⟩ : ArrowField)
          ∈ transformOutputSchema numSubVectors
      ∧ (∀ m dist sub rows out,
          partitionTransform m dist sub numSubVectors rows = some out →
          ∀ s ∈ out, s.code.length = numSubVectors) := by
  refine ⟨?_, ?_, ?_, ?_, ?_⟩
  · simp [transformOutputSchema]
  · intro f hf
    simp only [transformOutputSchema, List.mem_cons, List.mem_singleton,
      List.not_mem_nil, or_false] at hf
    rcases hf with hf | hf | hf
    · rw [hf]
      exact fun he => hc1 he.symm
    · rw [hf]
      exact fun he => hc2 he.symm
    · rw [hf]
      exact fun he => hc3 he.symm
  · simp [transformOutputSchema]
  · rw [← i32ofNat_small numSubVectors hw]
    simp [transformOutputSchema]
  · intro m dist sub rows out h
    exact partitionTransform_code_length m dist sub numSubVectors rows out h

/-- Witness for C8 with eight sub-vectors, vector column "vector", and a
concrete transformed batch. -/
theorem transform_output_schema_shape_witness :
    rowIdField ∈ transformOutputSchema 8
      ∧ (∀ f ∈ transformOutputSchema 8, f.name ≠ "vector")
      ∧ (⟨PART_ID_COLUMN, ArrowType.uint32T, false⟩ : ArrowField)
          ∈ transformOutputSchema 8
      ∧ (⟨PQ_CODE_COLUMN,
            ArrowType.fixedSizeListT ArrowType.uint8T true (8 : Int),
            false⟩ : ArrowField)
          ∈ transformOutputSchema 8
      ∧ (∀ m dist sub rows out,
          partitionTransform m dist sub 8 rows = some out →
          ∀ s ∈ out, s.code.length = 8) :=
  transform_output_schema_shape 8 "vector" (by decide) (by decide) (by decide)
    (by decide)

/-- C9: every state of the transform stage reachable from the initial state
keeps at most `n` assignment tasks in flight (the source instantiates `n`
with the processor count), and when all `n` slots are occupied no step can
consume input — backpressure. -/
theorem transform_stage_bounded (n : Nat) (input : List Nat) (s : BufState)
    (h : BufReach n (initBufState input) s) :
    s.inFlight.length ≤ n
      ∧ (∀ s2, s.inFlight.length = n → BufStep n s s2 →
          s2.pending = s.pending) := by
  constructor
  · induction h with
    | refl => simp [initBufState]
    | tail hr hstep ih =>
      cases hstep with
      | pull b rest flight out hlt =>
        simpa using hlt
      | complete pend f1 f2 out b =>
        simp only [List.length_append, List.length_cons] at ih ⊢
        omega
  · intro s2 hful hstep
    cases hstep with
    | pull b rest flight out hlt =>
      exfalso
      simp only at hful
      omega
    | complete pend f1 f2 out b =>
      rfl

/-- Witness for C9: the initial state with three pending batches and two
slots is reachable and satisfies the bound. -/
theorem transform_stage_bounded_witness :
    (initBufState [0, 1, 2]).inFlight.length ≤ 2
      ∧ (∀ s2, (initBufState [0, 1, 2]).inFlight.length = 2 →
          BufStep 2 (initBufState [0, 1, 2]) s2 →
          s2.pending = (initBufState [0, 1, 2]).pending) :=
  transform_stage_bounded 2 [0, 1, 2] (initBufState [0, 1, 2])
    Relation.ReflTransGen.refl

/-- Witness for C2 at a concrete stream: two rows out of order for strategy
A, one staged batch and two partitions for strategy B. -/
theorem shuffle_output_partition_order_witness :
    ((sortByPartId [⟨0, 1, []⟩, ⟨1, 0, []⟩]).Pairwise
        (fun a b => a.partId ≤ b.partId)
      ∧ (sortByPartId [⟨0, 1, []⟩, ⟨1, 0, []⟩]).Perm [⟨0, 1, []⟩, ⟨1, 0, []⟩]
      ∧ (∀ p, (sortByPartId [⟨0, 1, []⟩, ⟨1, 0, []⟩]).filter
            (fun x => x.partId = p)
          = List.filter (fun x => x.partId = p) [⟨0, 1, []⟩, ⟨1, 0, []⟩]))
    ∧ (shuffleDatasetA none [⟨0, 1, []⟩, ⟨1, 0, []⟩]).2
        = groupByPartId (sortByPartId [⟨0, 1, []⟩, ⟨1, 0, []⟩])
    ∧ (∀ g ∈ (shuffleDatasetA none [⟨0, 1, []⟩, ⟨1, 0, []⟩]).2,
        ∀ s ∈ g.2, s.partId = g.1)
    ∧ ((shuffleDatasetA none [⟨0, 1, []⟩, ⟨1, 0, []⟩]).2.map
        Prod.fst).Pairwise (· < ·)
    ∧ ((shuffleDatasetA none [⟨0, 1, []⟩, ⟨1, 0, []⟩]).2.map Prod.fst).Nodup
    ∧ ((shuffleDatasetV2Model 2 [[⟨2, 1, [3]⟩]]).map Prod.fst).Pairwise
        (· < ·)
    ∧ ((shuffleDatasetV2Model 2 [[⟨2, 1, [3]⟩]]).map Prod.fst).Nodup :=
  shuffle_output_partition_order none [⟨0, 1, []⟩, ⟨1, 0, []⟩] 2
    [[⟨2, 1, [3]⟩]]

end IvfBuilder
